import Mathlib

/-!
Verification development for the resilience utilities of the
`metadataextractApril` repository: the batch processor
(`modules/batch_processing.py`), the retry manager and circuit breaker
(`modules/retry.py`), the tiered cache (`modules/cache.py`) and the
background job manager (`modules/background_processing.py`).

Each Python function the specification talks about is shallowly embedded
as an executable Lean definition.  Nondeterminism of the thread pool is
made explicit: the order in which futures complete is a parameter (a
permutation of the chunk's indices), and wall-clock time is an explicit
`Int` argument wherever the Python code calls `time.time()`.
-/

namespace MetadataExtract

/-! ## Batch processor (`modules/batch_processing.py`)

`BatchProcessor.process_batch` splits `items` into consecutive chunks of
`batch_size` and hands each chunk to `_process_batch_concurrent`, which
submits one future per item to a thread pool and then appends an outcome
tuple `(item, result, error)` for each future **in the order the futures
complete** (`concurrent.futures.as_completed`).

A Python work function may return `None` on success, and the `result`
slot of the tuple is `None` exactly when the Python value stored there is
`None`; we therefore model the work function as
`f : α → Except ε (Option β)` — `Except.error` is a raised exception,
`Except.ok none` is a successful call that returned `None`.  In an
outcome, `result = none` / `error = none` model the Python `None` in the
corresponding tuple slot. -/

/-- One element of the list returned by `process_batch`: the Python tuple
`(item, result, exception)`. -/
structure Outcome (α β ε : Type) where
  item : α
  result : Option β
  error : Option ε
deriving Repr, DecidableEq

/-- `BatchProcessor._process_batch_concurrent`.  `order` is the order in
which the submitted futures complete: a list of indices into `batch`.
For each completed future the code appends `(item, result, None)` on
success and `(item, None, e)` when `future.result()` re-raises `e`. -/
def processBatchConcurrent (batch : List α) (f : α → Except ε (Option β))
    (order : List Nat) : List (Outcome α β ε) :=
  order.filterMap fun i =>
    (batch[i]?).map fun item =>
      match f item with
      | .ok v => ⟨item, v, none⟩
      | .error e => ⟨item, none, some e⟩

/-- The chunking loop `for i in range(0, len(items), batch_size)`:
consecutive slices `items[i:i+batch_size]`.  The fuel argument makes the
recursion structural; `chunksOf` instantiates it with `l.length`, which
suffices whenever `bs > 0` (a `batch_size` of `0` would make the Python
`range` raise `ValueError`). -/
def chunksGo (bs : Nat) : Nat → List α → List (List α)
  | 0, _ => []
  | _, [] => []
  | fuel + 1, l => l.take bs :: chunksGo bs fuel (l.drop bs)

/-- The list of chunks `items[0:bs], items[bs:2*bs], …`. -/
def chunksOf (bs : Nat) (l : List α) : List (List α) :=
  chunksGo bs l.length l

/-- `BatchProcessor.process_batch` (metrics, throttling and the progress
callback have no effect on the returned list and are omitted).  `orders`
gives, chunk by chunk, the completion order of that chunk's futures. -/
def process_batch (items : List α) (f : α → Except ε (Option β))
    (batch_size : Nat) (orders : List (List Nat)) : List (Outcome α β ε) :=
  ((chunksOf batch_size items).zip orders).flatMap fun p =>
    processBatchConcurrent p.1 f p.2

/-! ### Timeout behaviour

`as_completed(future_to_item, timeout=timeout)` raises
`concurrent.futures.TimeoutError` if the timeout expires while some
futures are still pending; the partial `results` list built so far is a
local variable and is discarded, and the exception propagates through
`process_batch` (which has no `try` around the chunk loop) to the caller.
`completed` abstracts how many of the chunk's futures finished before the
timeout expired. -/

/-- `_process_batch_concurrent` with its chunk timeout: if every future
completes before the timeout (`batch.length ≤ completed`) it returns the
outcome list, otherwise `as_completed` raises `TimeoutError`
(`Except.error ()`), discarding all outcomes collected so far. -/
def processBatchConcurrentTimed (batch : List α) (f : α → Except ε (Option β))
    (order : List Nat) (completed : Nat) : Except Unit (List (Outcome α β ε)) :=
  if batch.length ≤ completed then
    .ok (processBatchConcurrent batch f order)
  else
    .error ()

/-- `process_batch` with per-chunk timeouts: the chunk loop stops at the
first chunk whose `as_completed` raises, and the exception propagates to
the caller (`schedule` pairs each chunk's completion order with the
number of its futures that finished in time). -/
def processBatchTimed (items : List α) (f : α → Except ε (Option β))
    (batch_size : Nat) (schedule : List (List Nat × Nat)) :
    Except Unit (List (Outcome α β ε)) :=
  go ((chunksOf batch_size items).zip schedule)
where
  go : List (List α × (List Nat × Nat)) → Except Unit (List (Outcome α β ε))
    | [] => .ok []
    | (chunk, ord, compl) :: rest =>
      match processBatchConcurrentTimed chunk f ord compl with
      | .error e => .error e
      | .ok outs =>
        match go rest with
        | .error e => .error e
        | .ok more => .ok (outs ++ more)

/-! ### Helper lemmas about the batch model -/

theorem chunksGo_flatten (bs : Nat) (hbs : 0 < bs) :
    ∀ (fuel : Nat) (l : List α), l.length ≤ fuel →
      (chunksGo bs fuel l).flatten = l := by
  intro fuel
  induction fuel with
  | zero =>
    intro l hl
    have : l = [] := List.eq_nil_of_length_eq_zero (Nat.le_zero.mp hl)
    subst this
    rfl
  | succ n ih =>
    intro l hl
    cases l with
    | nil => rfl
    | cons a t =>
      have hdrop : (List.drop bs (a :: t)).length ≤ n := by
        rw [List.length_drop]
        have : 0 < (a :: t).length := by simp
        omega
      simp only [chunksGo, List.flatten_cons, ih _ hdrop, List.take_append_drop]

theorem chunksOf_flatten (bs : Nat) (l : List α) (hbs : 0 < bs) :
    (chunksOf bs l).flatten = l :=
  chunksGo_flatten bs hbs l.length l (Nat.le_refl _)

theorem filterMap_getElem_range (l : List α) :
    (List.range l.length).filterMap (fun i => l[i]?) = l := by
  induction l with
  | nil => rfl
  | cons a t ih =>
    rw [List.length_cons, List.range_succ_eq_map, List.filterMap_cons]
    simp only [List.getElem?_cons_zero, List.filterMap_map]
    have : (fun i => (a :: t)[i]?) ∘ Nat.succ = fun i => t[i]? := by
      funext i
      simp
    rw [this, ih]

theorem processBatchConcurrent_map_item (batch : List α)
    (f : α → Except ε (Option β)) (order : List Nat) :
    (processBatchConcurrent batch f order).map Outcome.item
      = order.filterMap (fun i => batch[i]?) := by
  unfold processBatchConcurrent
  rw [List.map_filterMap]
  congr 1
  funext i
  cases h : batch[i]? with
  | none => rfl
  | some item =>
    cases hf : f item <;> simp [h, hf]

theorem processBatchConcurrent_perm (batch : List α)
    (f : α → Except ε (Option β)) (order : List Nat)
    (hord : order.Perm (List.range batch.length)) :
    ((processBatchConcurrent batch f order).map Outcome.item).Perm batch := by
  rw [processBatchConcurrent_map_item]
  have h1 : (order.filterMap (fun i => batch[i]?)).Perm
      ((List.range batch.length).filterMap (fun i => batch[i]?)) :=
    hord.filterMap _
  rw [filterMap_getElem_range] at h1
  exact h1

theorem zip_flatMap_perm (f : α → Except ε (Option β)) :
    ∀ (chunks : List (List α)) (orders : List (List Nat)),
      List.Forall₂ (fun chunk ord => ord.Perm (List.range chunk.length))
        chunks orders →
      (((chunks.zip orders).flatMap fun p =>
          processBatchConcurrent p.1 f p.2).map Outcome.item).Perm chunks.flatten := by
  intro chunks orders h
  induction h with
  | nil => simp
  | @cons chunk ord chunks orders hco _ ih =>
    simp only [List.zip_cons_cons, List.flatMap_cons, List.map_append,
      List.flatten_cons]
    exact (processBatchConcurrent_perm chunk f ord hco).append ih

/-! ### Claim C1

The specification says outcomes within a chunk are "collected by index,
not by completion order", so that the i-th outcome corresponds to the
i-th input item.  The code collects them with
`concurrent.futures.as_completed`, i.e. in completion order. -/

/-- C1 counterexample: a two-item chunk whose futures complete in reverse
order (`[1, 0]`, a genuine permutation of `range 2`) yields the outcome
items in order `[20, 10]`: the 0-th outcome corresponds to item `20`,
not to the 0-th input item `10`.  The claim's ordering guarantee is false
on the code. -/
theorem c1_counterexample :
    [1, 0].Perm (List.range 2) ∧
    (process_batch [10, 20]
        (fun n => (Except.ok (some n) : Except Unit (Option Nat)))
        2 [[1, 0]]).map Outcome.item = [20, 10] ∧
    [20, 10] ≠ [10, 20] := by
  refine ⟨by decide, by rfl, by decide⟩

/-- C1 amended: for a positive batch size and one completion order per
chunk (each a permutation of that chunk's indices), `process_batch`
returns exactly `items.length` outcome tuples, and the outcomes' items
form a permutation of the inputs — chunk by chunk in completion order,
not necessarily in input order. -/
theorem c1_length_and_items_perm (items : List α)
    (f : α → Except ε (Option β)) (batch_size : Nat)
    (orders : List (List Nat)) (hbs : 0 < batch_size)
    (hord : List.Forall₂ (fun chunk ord => ord.Perm (List.range chunk.length))
      (chunksOf batch_size items) orders) :
    (process_batch items f batch_size orders).length = items.length ∧
    ((process_batch items f batch_size orders).map Outcome.item).Perm items := by
  have hperm : ((process_batch items f batch_size orders).map Outcome.item).Perm
      items := by
    have h := zip_flatMap_perm f (chunksOf batch_size items) orders hord
    rwa [chunksOf_flatten batch_size items hbs] at h
  refine ⟨?_, hperm⟩
  calc (process_batch items f batch_size orders).length
      = ((process_batch items f batch_size orders).map Outcome.item).length := by
        rw [List.length_map]
    _ = items.length := hperm.length_eq

/-- C1 witness: three items, batch size two, first chunk completing in
reverse order. -/
theorem c1_length_and_items_perm_witness :
    (process_batch [10, 20, 30]
        (fun n => (Except.ok (some n) : Except Unit (Option Nat)))
        2 [[1, 0], [0]]).length = 3 ∧
    ((process_batch [10, 20, 30]
        (fun n => (Except.ok (some n) : Except Unit (Option Nat)))
        2 [[1, 0], [0]]).map Outcome.item).Perm [10, 20, 30] :=
  c1_length_and_items_perm [10, 20, 30] _ 2 [[1, 0], [0]] (by decide)
    (by
      show List.Forall₂ _ [[10, 20], [30]] [[1, 0], [0]]
      exact .cons (by decide) (.cons (by decide) .nil))

/-! ### Claim C2

The specification's invariant "exactly one of result/error is set, never
both, never neither" fails for a work function that succeeds returning
`None`: the code appends `(item, result, None)` with `result = None`,
so neither slot is set. -/

/-- C2 counterexample: a work function that succeeds returning `None`
produces the outcome tuple `(0, None, None)` — neither slot is set, so
"exactly one of result/error is set" is false on the code. -/
theorem c2_counterexample :
    process_batch [0] (fun _ => (Except.ok none : Except Unit (Option Nat)))
        10 [[0]]
      = [⟨0, none, none⟩] := by rfl

/-- C2 amended: in every outcome of `process_batch`, at most one of
result/error is set (never both); the error slot is set exactly when the
work function raised on that item (and then holds that exception), and
on success the result slot holds the function's return value — which is
unset precisely when that value is `None`. -/
theorem c2_at_most_one_set (items : List α) (f : α → Except ε (Option β))
    (batch_size : Nat) (orders : List (List Nat)) :
    ∀ o ∈ process_batch items f batch_size orders,
      (o.error.isSome → o.result = none) ∧
      (o.error = none → f o.item = .ok o.result) ∧
      (∀ e, o.error = some e → f o.item = .error e) := by
  intro o ho
  rw [process_batch, List.mem_flatMap] at ho
  obtain ⟨p, _, hp⟩ := ho
  rw [processBatchConcurrent, List.mem_filterMap] at hp
  obtain ⟨i, _, hi⟩ := hp
  cases hb : p.1[i]? with
  | none => rw [hb] at hi; simp at hi
  | some item =>
    rw [hb, Option.map_some'] at hi
    cases hf : f item with
    | ok v =>
      rw [hf] at hi
      injection hi with hi
      subst hi
      exact ⟨fun h => Bool.noConfusion h, fun _ => hf,
        fun e2 he2 => Option.noConfusion he2⟩
    | error e =>
      rw [hf] at hi
      injection hi with hi
      subst hi
      exact ⟨fun _ => rfl, fun h => Option.noConfusion h,
        fun e2 he2 => (Option.some_inj.mp he2) ▸ hf⟩

/-- C2 witness: the amended characterisation evaluated on a successful
outcome of a concrete batch. -/
theorem c2_at_most_one_set_witness :
    ((⟨5, some 5, none⟩ : Outcome Nat Nat Unit).error.isSome →
      (⟨5, some 5, none⟩ : Outcome Nat Nat Unit).result = none) ∧
    ((⟨5, some 5, none⟩ : Outcome Nat Nat Unit).error = none →
      (fun n => (Except.ok (some n) : Except Unit (Option Nat))) 5
        = .ok (⟨5, some 5, none⟩ : Outcome Nat Nat Unit).result) ∧
    (∀ e, (⟨5, some 5, none⟩ : Outcome Nat Nat Unit).error = some e →
      (fun n => (Except.ok (some n) : Except Unit (Option Nat))) 5
        = .error e) :=
  c2_at_most_one_set [5]
    (fun n => (Except.ok (some n) : Except Unit (Option Nat))) 10 [[0]]
    ⟨5, some 5, none⟩ (by decide)

/-! ### Claim C5

The specification says items not completed by the chunk timeout are
surfaced as per-item timeout failures and the call still returns an
outcome for every item.  In the code, `as_completed(…, timeout=…)`
raises `concurrent.futures.TimeoutError`, which propagates to the
caller of `process_batch`; no outcome list is returned at all. -/

/-- C5 counterexample: a two-item chunk of which only one future
completes before the timeout makes the whole `process_batch` call raise
`TimeoutError` — it does not return a four-slot outcome list with a
per-item timeout failure, contradicting the claim. -/
theorem c5_counterexample :
    processBatchTimed [0, 1]
        (fun n => (Except.ok (some n) : Except Unit (Option Nat)))
        2 [([0, 1], 1)]
      = .error () := by rfl

theorem processBatchTimed_go_error_iff (f : α → Except ε (Option β)) :
    ∀ l : List (List α × (List Nat × Nat)),
      (processBatchTimed.go f l = .error () ↔
        ∃ p ∈ l, p.2.2 < p.1.length) ∧
      ((∀ p ∈ l, p.1.length ≤ p.2.2) →
        processBatchTimed.go f l
          = .ok (l.flatMap fun p => processBatchConcurrent p.1 f p.2.1)) := by
  intro l
  induction l with
  | nil => exact ⟨by simp [processBatchTimed.go], by simp [processBatchTimed.go]⟩
  | cons hd tl ih =>
    obtain ⟨chunk, ord, compl⟩ := hd
    by_cases hc : chunk.length ≤ compl
    · constructor
      · rw [processBatchTimed.go, processBatchConcurrentTimed, if_pos hc]
        constructor
        · intro h
          cases hgo : processBatchTimed.go f tl with
          | error e =>
            obtain ⟨p, hpmem, hp⟩ := ih.1.mp (by rw [hgo])
            exact ⟨p, List.mem_cons_of_mem _ hpmem, hp⟩
          | ok more => rw [hgo] at h; simp at h
        · rintro ⟨p, hpmem, hp⟩
          rcases List.mem_cons.mp hpmem with heq | hmem
          · subst heq
            have hp2 : compl < chunk.length := hp
            omega
          · rw [ih.1.mpr ⟨p, hmem, hp⟩]
      · intro hall
        rw [processBatchTimed.go, processBatchConcurrentTimed, if_pos hc,
          ih.2 (fun p hp => hall p (List.mem_cons_of_mem _ hp)),
          List.flatMap_cons]
    · constructor
      · rw [processBatchTimed.go, processBatchConcurrentTimed, if_neg hc]
        exact ⟨fun _ => ⟨(chunk, ord, compl), List.mem_cons_self _ _, by
          simpa using Nat.lt_of_not_le hc⟩, fun _ => rfl⟩
      · intro hall
        exact absurd (hall _ (List.mem_cons_self _ _)) hc

/-- C5 amended: with one (completion order, futures-completed) pair per
chunk, `process_batch` raises a `TimeoutError` to the caller exactly
when some chunk has a future that did not complete before the chunk
timeout; only when every chunk completes fully does it return the
outcome list (which is then the usual per-item list).  Timed-out items
are never surfaced as per-item outcomes. -/
theorem c5_timeout_raises (items : List α) (f : α → Except ε (Option β))
    (batch_size : Nat) (schedule : List (List Nat × Nat))
    (hlen : schedule.length = (chunksOf batch_size items).length) :
    (processBatchTimed items f batch_size schedule = .error () ↔
      ∃ p ∈ (chunksOf batch_size items).zip schedule, p.2.2 < p.1.length) ∧
    ((∀ p ∈ (chunksOf batch_size items).zip schedule, p.1.length ≤ p.2.2) →
      processBatchTimed items f batch_size schedule
        = .ok (process_batch items f batch_size (schedule.map Prod.fst))) := by
  constructor
  · exact (processBatchTimed_go_error_iff f _).1
  · intro hall
    rw [processBatchTimed, (processBatchTimed_go_error_iff f _).2 hall,
      process_batch]
    congr 1
    rw [List.zip_map_right, List.flatMap_map]
    rfl

/-- C5 witness: a schedule in which every chunk completes fully returns
the usual outcome list; the hypothesis side is discharged at a concrete
input. -/
theorem c5_timeout_raises_witness :
    processBatchTimed [0, 1, 2]
        (fun n => (Except.ok (some n) : Except Unit (Option Nat)))
        2 [([1, 0], 2), ([0], 1)]
      = .ok (process_batch [0, 1, 2]
          (fun n => (Except.ok (some n) : Except Unit (Option Nat)))
          2 [[1, 0], [0]]) :=
  (c5_timeout_raises [0, 1, 2] _ 2 [([1, 0], 2), ([0], 1)] (by decide)).2
    (by decide)

/-! ## Retry manager (`modules/retry.py`, `RetryManager.execute`)

The wrapped function may behave differently on each invocation, so it is
embedded as `fn : Nat → Except ε γ` giving the outcome of the i-th
invocation (0-indexed): `Except.error` is a raised exception.  The model
covers the default configuration `retry_exceptions = None` (every
exception type is retried) without a circuit breaker; the backoff sleep
has no effect on the result or the invocation count and is omitted.  The
statistics counters are likewise observers only. -/

/-- The `while True` loop of `RetryManager.execute`: `attempt` is the
index of the next invocation and `budget` the number of retries still
allowed (`max_retries - retries`).  Returns the raised/returned outcome
together with the number of invocations performed. -/
def retryExecGo (fn : Nat → Except ε γ) (attempt budget : Nat) :
    Except ε γ × Nat :=
  match fn attempt, budget with
  | .ok v, _ => (.ok v, 1)
  | .error e, 0 => (.error e, 1)
  | .error _, b + 1 =>
    let r := retryExecGo fn (attempt + 1) b
    (r.1, r.2 + 1)

/-- `RetryManager.execute` configured with `max_retries`. -/
def retryExecute (fn : Nat → Except ε γ) (max_retries : Nat) :
    Except ε γ × Nat :=
  retryExecGo fn 0 max_retries

theorem retryExecGo_ok (fn : Nat → Except ε γ) (a b : Nat) (v : γ)
    (h : fn a = .ok v) : retryExecGo fn a b = (.ok v, 1) := by
  rw [retryExecGo.eq_def, h]

theorem retryExecGo_error_zero (fn : Nat → Except ε γ) (a : Nat) (e : ε)
    (h : fn a = .error e) : retryExecGo fn a 0 = (.error e, 1) := by
  rw [retryExecGo.eq_def, h]

theorem retryExecGo_error_succ (fn : Nat → Except ε γ) (a b : Nat) (e : ε)
    (h : fn a = .error e) :
    retryExecGo fn a (b + 1)
      = ((retryExecGo fn (a + 1) b).1, (retryExecGo fn (a + 1) b).2 + 1) := by
  rw [retryExecGo.eq_def, h]

theorem retryExecGo_count (fn : Nat → Except ε γ) :
    ∀ (b a k : Nat), (∀ i, i < k → (fn (a + i)).isOk = false) →
      (fn (a + k)).isOk = true →
      (retryExecGo fn a b).2 = 1 + min k b := by
  intro b
  induction b with
  | zero =>
    intro a k hfail hok
    cases hfa : fn a with
    | ok v => rw [retryExecGo_ok fn a 0 v hfa]; simp
    | error e => rw [retryExecGo_error_zero fn a e hfa]; simp
  | succ b ih =>
    intro a k hfail hok
    cases k with
    | zero =>
      rw [Nat.add_zero] at hok
      cases hfa : fn a with
      | ok v => rw [retryExecGo_ok fn a (b + 1) v hfa]; simp
      | error e => rw [hfa] at hok; exact Bool.noConfusion hok
    | succ k =>
      have h0 := hfail 0 (Nat.succ_pos k)
      rw [Nat.add_zero] at h0
      cases hfa : fn a with
      | ok v => rw [hfa] at h0; exact Bool.noConfusion h0
      | error e =>
        have h1 : ∀ i, i < k → (fn (a + 1 + i)).isOk = false := by
          intro i hi
          have := hfail (i + 1) (Nat.succ_lt_succ hi)
          rwa [show a + (i + 1) = a + 1 + i by omega] at this
        have h2 : (fn (a + 1 + k)).isOk = true := by
          rwa [show a + (k + 1) = a + 1 + k by omega] at hok
        rw [retryExecGo_error_succ fn a b e hfa]
        show (retryExecGo fn (a + 1) b).2 + 1 = 1 + min (k + 1) (b + 1)
        rw [ih (a + 1) k h1 h2]
        omega

theorem retryExecGo_allFail (fn : Nat → Except ε γ) :
    ∀ (b a : Nat), (∀ i, i ≤ b → (fn (a + i)).isOk = false) →
      retryExecGo fn a b = (fn (a + b), b + 1) := by
  intro b
  induction b with
  | zero =>
    intro a hfail
    have h0 := hfail 0 (Nat.le_refl 0)
    rw [Nat.add_zero] at h0
    cases hfa : fn a with
    | ok v => rw [hfa] at h0; exact Bool.noConfusion h0
    | error e => rw [retryExecGo_error_zero fn a e hfa, Nat.add_zero, hfa]
  | succ b ih =>
    intro a hfail
    have h0 := hfail 0 (Nat.zero_le _)
    rw [Nat.add_zero] at h0
    cases hfa : fn a with
    | ok v => rw [hfa] at h0; exact Bool.noConfusion h0
    | error e =>
      have h1 : ∀ i, i ≤ b → (fn (a + 1 + i)).isOk = false := by
        intro i hi
        have := hfail (i + 1) (Nat.succ_le_succ hi)
        rwa [show a + (i + 1) = a + 1 + i by omega] at this
      rw [retryExecGo_error_succ fn a b e hfa, ih (a + 1) h1]
      show (fn (a + 1 + b), b + 1 + 1) = (fn (a + (b + 1)), b + 1 + 1)
      rw [show a + 1 + b = a + (b + 1) by omega]

/-! ### Claim C3 -/

/-- C3: with `k` consecutive initial failures followed by a success, the
wrapped function is invoked exactly `1 + min k max_retries` times; and
when all `max_retries + 1` invocations fail, the exception raised by the
last invocation itself (`fn max_retries`, not a wrapper error) is the
outcome, after exactly `max_retries + 1` invocations. -/
theorem c3_retry_invocation_count (fn : Nat → Except ε γ)
    (max_retries k : Nat) :
    ((∀ i, i < k → (fn i).isOk = false) → (fn k).isOk = true →
      (retryExecute fn max_retries).2 = 1 + min k max_retries) ∧
    ((∀ i, i ≤ max_retries → (fn i).isOk = false) →
      retryExecute fn max_retries = (fn max_retries, max_retries + 1)) := by
  constructor
  · intro hfail hok
    exact retryExecGo_count fn max_retries 0 k
      (by simpa using hfail) (by simpa using hok)
  · intro hfail
    have h := retryExecGo_allFail fn max_retries 0 (by simpa using hfail)
    rw [retryExecute, h]
    rw [show 0 + max_retries = max_retries by omega]

/-- C3 witness: a function failing twice then succeeding, with
`max_retries = 3`, is invoked `1 + min 2 3 = 3` times. -/
theorem c3_retry_invocation_count_witness :
    (retryExecute
        (fun i => if i < 2 then (Except.error "boom" : Except String Nat)
                  else .ok 7) 3).2 = 1 + min 2 3 :=
  (c3_retry_invocation_count
      (fun i => if i < 2 then (Except.error "boom" : Except String Nat)
                else .ok 7) 3 2).1
    (by decide) (by decide)

/-! ## Circuit breaker (`modules/retry.py`, `CircuitBreaker`)

Wall-clock time is an explicit `Int` argument `now` standing for
`time.time()` (the Python float timestamps are modelled at integer
resolution).  The wrapped call's outcome is passed as a value
`call : Except ε γ`, and `cbExecute` additionally reports whether the
code path actually executed the wrapped function (`invoked` flag). -/

inductive CBState where
  | closed
  | opened
  | halfOpen
deriving DecidableEq, Repr

/-- Errors surfaced by `CircuitBreaker.execute`: the distinguished
`CircuitBreakerError` raised on rejection, or the wrapped call's own
exception re-raised unchanged. -/
inductive CBError (ε : Type) where
  | circuitOpen : CBError ε
  | orig : ε → CBError ε
deriving DecidableEq, Repr

/-- The mutable fields of a `CircuitBreaker` instance together with its
configuration (`name` is display-only and omitted). -/
structure CircuitBreaker where
  failure_threshold : Nat
  recovery_timeout : Int
  half_open_max_calls : Nat
  state : CBState
  failure_count : Nat
  success_count : Nat
  last_failure_time : Int
  half_open_calls : Nat
  total_calls : Nat
  successful_calls : Nat
  failed_calls : Nat
  rejected_calls : Nat
  state_changes : List (Int × CBState)
deriving DecidableEq, Repr

/-- `CircuitBreaker.__init__`. -/
def mkCircuitBreaker (failure_threshold : Nat) (recovery_timeout : Int)
    (half_open_max_calls : Nat) : CircuitBreaker :=
  { failure_threshold := failure_threshold
    recovery_timeout := recovery_timeout
    half_open_max_calls := half_open_max_calls
    state := .closed
    failure_count := 0
    success_count := 0
    last_failure_time := 0
    half_open_calls := 0
    total_calls := 0
    successful_calls := 0
    failed_calls := 0
    rejected_calls := 0
    state_changes := [] }

/-- `CircuitBreaker.execute`.  Returns the raised/returned outcome, the
updated breaker, and whether the wrapped function was invoked. -/
def cbExecute (cb : CircuitBreaker) (now : Int) (call : Except ε γ) :
    Except (CBError ε) γ × CircuitBreaker × Bool :=
  let cb1 := { cb with total_calls := cb.total_calls + 1 }
  if cb1.state = CBState.opened ∧
      ¬ (now - cb1.last_failure_time > cb1.recovery_timeout) then
    (.error .circuitOpen,
     { cb1 with rejected_calls := cb1.rejected_calls + 1 }, false)
  else
    let cb2 :=
      if cb1.state = CBState.opened then
        { cb1 with state := CBState.halfOpen, half_open_calls := 0,
                   state_changes := (now, CBState.halfOpen) :: cb1.state_changes }
      else cb1
    if cb2.state = CBState.halfOpen ∧
        cb2.half_open_max_calls ≤ cb2.half_open_calls then
      (.error .circuitOpen,
       { cb2 with rejected_calls := cb2.rejected_calls + 1 }, false)
    else
      let cb3 :=
        if cb2.state = CBState.halfOpen then
          { cb2 with half_open_calls := cb2.half_open_calls + 1 }
        else cb2
      match call with
      | .ok v =>
        let cb4 := { cb3 with successful_calls := cb3.successful_calls + 1 }
        if cb4.state = CBState.halfOpen then
          let cb5 := { cb4 with success_count := cb4.success_count + 1 }
          if cb5.half_open_max_calls ≤ cb5.success_count then
            (.ok v,
             { cb5 with state := CBState.closed, failure_count := 0,
                        success_count := 0,
                        state_changes := (now, CBState.closed) :: cb5.state_changes },
             true)
          else (.ok v, cb5, true)
        else if cb4.state = CBState.closed then
          (.ok v, { cb4 with failure_count := cb4.failure_count - 1 }, true)
        else (.ok v, cb4, true)
      | .error e =>
        let cb4 := { cb3 with failed_calls := cb3.failed_calls + 1,
                              failure_count := cb3.failure_count + 1,
                              last_failure_time := now, success_count := 0 }
        if cb4.state = CBState.closed ∧
            cb4.failure_threshold ≤ cb4.failure_count then
          (.error (.orig e),
           { cb4 with state := CBState.opened,
                      state_changes := (now, CBState.opened) :: cb4.state_changes },
           true)
        else if cb4.state = CBState.halfOpen then
          (.error (.orig e),
           { cb4 with state := CBState.opened,
                      state_changes := (now, CBState.opened) :: cb4.state_changes },
           true)
        else (.error (.orig e), cb4, true)

/-- A sequence of `execute` calls, keeping only the final breaker. -/
def runCalls (cb : CircuitBreaker) (calls : List (Int × Except ε γ)) :
    CircuitBreaker :=
  calls.foldl (fun c p => (cbExecute c p.1 p.2).2.1) cb

/-- A sequence of `execute` calls, recording each call's outcome and
invoked flag. -/
def runCallsTrace (cb : CircuitBreaker) :
    List (Int × Except ε γ) →
      List (Except (CBError ε) γ × Bool) × CircuitBreaker
  | [] => ([], cb)
  | p :: rest =>
    let step := cbExecute cb p.1 p.2
    let next := runCallsTrace step.2.1 rest
    ((step.1, step.2.2) :: next.1, next.2)

theorem cbExecute_closed_error (cb : CircuitBreaker) (now : Int) (e : ε)
    (hst : cb.state = CBState.closed) :
    (cbExecute cb now (Except.error e) :
        Except (CBError ε) γ × CircuitBreaker × Bool).2.1 =
      if cb.failure_threshold ≤ cb.failure_count + 1 then
        { cb with total_calls := cb.total_calls + 1,
                  failed_calls := cb.failed_calls + 1,
                  failure_count := cb.failure_count + 1,
                  last_failure_time := now, success_count := 0,
                  state := CBState.opened,
                  state_changes := (now, CBState.opened) :: cb.state_changes }
      else
        { cb with total_calls := cb.total_calls + 1,
                  failed_calls := cb.failed_calls + 1,
                  failure_count := cb.failure_count + 1,
                  last_failure_time := now, success_count := 0 } := by
  simp [cbExecute, hst]
  split <;> rfl

theorem cbExecute_open_rejects (cb : CircuitBreaker) (now : Int)
    (call : Except ε γ) (hst : cb.state = CBState.opened)
    (hwin : now - cb.last_failure_time ≤ cb.recovery_timeout) :
    cbExecute cb now call =
      (.error .circuitOpen,
       { cb with total_calls := cb.total_calls + 1,
                 rejected_calls := cb.rejected_calls + 1 }, false) := by
  have hc : ¬ (now - cb.last_failure_time > cb.recovery_timeout) :=
    not_lt.mpr hwin
  simp [cbExecute, hst, hc]

theorem runFailures_spec (e : ε) :
    ∀ (failTimes : List Int) (cb : CircuitBreaker),
      cb.state = CBState.closed →
      cb.failure_count + failTimes.length ≤ cb.failure_threshold →
      (runCalls cb (failTimes.map fun τ => (τ, (Except.error e : Except ε γ)))).failure_threshold
          = cb.failure_threshold ∧
      (runCalls cb (failTimes.map fun τ => (τ, (Except.error e : Except ε γ)))).recovery_timeout
          = cb.recovery_timeout ∧
      (runCalls cb (failTimes.map fun τ => (τ, (Except.error e : Except ε γ)))).failure_count
          = cb.failure_count + failTimes.length ∧
      ((runCalls cb (failTimes.map fun τ => (τ, (Except.error e : Except ε γ)))).failure_count
          < cb.failure_threshold →
        (runCalls cb (failTimes.map fun τ => (τ, (Except.error e : Except ε γ)))).state
          = CBState.closed) ∧
      ((runCalls cb (failTimes.map fun τ => (τ, (Except.error e : Except ε γ)))).failure_count
          = cb.failure_threshold → 0 < failTimes.length →
        (runCalls cb (failTimes.map fun τ => (τ, (Except.error e : Except ε γ)))).state
          = CBState.opened) := by
  intro failTimes
  induction failTimes with
  | nil =>
    intro cb hst hcnt
    refine ⟨rfl, rfl, by simp [runCalls], ?_, ?_⟩
    · intro _; simpa [runCalls] using hst
    · intro _ h; exact absurd h (by simp)
  | cons τ rest ih =>
    intro cb hst hcnt
    simp only [List.map_cons, runCalls, List.foldl_cons] at *
    rw [cbExecute_closed_error cb τ e hst]
    by_cases hth : cb.failure_threshold ≤ cb.failure_count + 1
    · -- the first failure already reaches the threshold, so the rest
      -- of the list must be empty (count + length ≤ threshold)
      have hrest : rest = [] := by
        cases rest with
        | nil => rfl
        | cons r rs => simp [List.length_cons] at hcnt; omega
      subst hrest
      rw [if_pos hth]
      have hcc : cb.failure_count + 1 = cb.failure_threshold := by
        simp at hcnt; omega
      refine ⟨rfl, rfl, by simp [runCalls], ?_, ?_⟩
      · intro h; simp [runCalls] at h; omega
      · intro _ _; simp [runCalls]
    · rw [if_neg hth]
      have := ih { cb with total_calls := cb.total_calls + 1,
                           failed_calls := cb.failed_calls + 1,
                           failure_count := cb.failure_count + 1,
                           last_failure_time := τ, success_count := 0 }
        hst (by simp at hcnt ⊢; omega)
      simp only [runCalls] at this
      obtain ⟨h1, h2, h3, h4, h5⟩ := this
      refine ⟨by simpa using h1, by simpa using h2, by simp at h3 ⊢; omega,
        ?_, ?_⟩
      · intro h; exact h4 (by simpa using h)
      · intro h _
        cases rest with
        | nil =>
          exfalso
          simp at h
          omega
        | cons r rs =>
          exact h5 (by simpa using h) (by simp)

theorem runCallsTrace_all_rejected :
    ∀ (later : List (Int × Except ε γ)) (cb : CircuitBreaker) (L rt : Int),
      cb.state = CBState.opened → cb.last_failure_time = L →
      cb.recovery_timeout = rt →
      (∀ p ∈ later, p.1 - L ≤ rt) →
      ∀ r ∈ (runCallsTrace cb later).1,
        r.1 = Except.error CBError.circuitOpen ∧ r.2 = false := by
  intro later
  induction later with
  | nil => intro cb L rt _ _ _ _ r hr; simp [runCallsTrace] at hr
  | cons p rest ih =>
    intro cb L rt hst hL hrt hwin r hr
    have hrej := cbExecute_open_rejects cb p.1 p.2 hst
      (by rw [hL, hrt]; exact hwin p (List.mem_cons_self _ _))
    rw [runCallsTrace] at hr
    simp only [hrej] at hr
    rcases List.mem_cons.mp hr with heq | hmem
    · subst heq; exact ⟨rfl, rfl⟩
    · exact ih _ L rt (by rw [← hst]) (by rw [← hL]) (by rw [← hrt])
        (fun q hq => hwin q (List.mem_cons_of_mem _ hq)) r hmem

/-! ### Claim C4 -/

/-- C4: a breaker freshly constructed with a positive
`failure_threshold`, after exactly `failure_threshold` consecutive
failed executions, is in the open state; and every subsequent `execute`
whose time is within `recovery_timeout` of the last failure raises the
distinguished circuit-open error (never the wrapped call's own error)
without invoking the wrapped function. -/
theorem c4_breaker_opens_then_rejects (t : Nat) (rt : Int) (hm : Nat)
    (ht : 1 ≤ t) (e : ε) (failTimes : List Int)
    (hlen : failTimes.length = t) (later : List (Int × Except ε γ))
    (hwin : ∀ p ∈ later,
      p.1 - (runCalls (mkCircuitBreaker t rt hm)
        (failTimes.map fun τ => (τ, (Except.error e : Except ε γ)))).last_failure_time
        ≤ rt) :
    (runCalls (mkCircuitBreaker t rt hm)
        (failTimes.map fun τ => (τ, (Except.error e : Except ε γ)))).state
      = CBState.opened ∧
    ∀ r ∈ (runCallsTrace (runCalls (mkCircuitBreaker t rt hm)
        (failTimes.map fun τ => (τ, (Except.error e : Except ε γ)))) later).1,
      r.1 = Except.error CBError.circuitOpen ∧ r.2 = false := by
  have hspec := runFailures_spec (γ := γ) e failTimes (mkCircuitBreaker t rt hm)
    rfl (by simp [mkCircuitBreaker, hlen])
  obtain ⟨hth, hrt, hcnt, _, hopen⟩ := hspec
  have hstate : (runCalls (mkCircuitBreaker t rt hm)
      (failTimes.map fun τ => (τ, (Except.error e : Except ε γ)))).state
        = CBState.opened := by
    apply hopen
    · rw [hcnt]; simp [mkCircuitBreaker, hlen]
    · omega
  refine ⟨hstate, ?_⟩
  exact runCallsTrace_all_rejected later _ _ rt hstate rfl
    (by rw [hrt]; simp [mkCircuitBreaker]) hwin

/-- C4 witness: threshold 2, recovery timeout 30; failures at times 10
and 20 open the breaker, and calls at times 25 and 40 (both within the
window) are rejected with the circuit-open error, uninvoked. -/
theorem c4_breaker_opens_then_rejects_witness :
    (runCalls (mkCircuitBreaker 2 30 3)
        ([10, 20].map fun τ => (τ, (Except.error () : Except Unit Nat)))).state
      = CBState.opened ∧
    ∀ r ∈ (runCallsTrace (runCalls (mkCircuitBreaker 2 30 3)
        ([10, 20].map fun τ => (τ, (Except.error () : Except Unit Nat))))
        [(25, Except.ok 5), (40, Except.error ())]).1,
      r.1 = Except.error CBError.circuitOpen ∧ r.2 = false :=
  c4_breaker_opens_then_rejects 2 30 3 (by decide) () [10, 20] (by decide)
    [(25, Except.ok 5), (40, Except.error ())] (by decide)

/-! ## Retry manager integrated with a circuit breaker

`RetryManager.execute` with `circuit_breaker` set wraps every attempt in
`circuit_breaker.execute`; a raised `CircuitBreakerError` is re-raised
immediately (`except CircuitBreakerError: … raise`) before the generic
retry handler can see it.  `times attempt` is the wall-clock time of the
attempt; the result records the final outcome, the final breaker, the
number of actual invocations of the wrapped function, and the number of
backoff sleeps performed. -/

def retryCBGo (fn : Nat → Except ε γ) (times : Nat → Int)
    (cb : CircuitBreaker) (attempt budget : Nat) :
    Except (CBError ε) γ × CircuitBreaker × Nat × Nat :=
  match cbExecute cb (times attempt) (fn attempt), budget with
  | (.ok v, cb2, invoked), _ =>
    (.ok v, cb2, if invoked then 1 else 0, 0)
  | (.error .circuitOpen, cb2, invoked), _ =>
    (.error .circuitOpen, cb2, if invoked then 1 else 0, 0)
  | (.error (.orig e), cb2, invoked), 0 =>
    (.error (.orig e), cb2, if invoked then 1 else 0, 0)
  | (.error (.orig _), cb2, invoked), b + 1 =>
    let r := retryCBGo fn times cb2 (attempt + 1) b
    (r.1, r.2.1, (if invoked then 1 else 0) + r.2.2.1, 1 + r.2.2.2)

/-! ### Claim C7 -/

/-- C7: when an attempt hits an open breaker within its recovery window
(so `circuit_breaker.execute` raises `CircuitBreakerError`),
`RetryManager.execute` re-raises that circuit-open error immediately:
the wrapped function is not invoked at all, no backoff sleep happens,
and this holds regardless of the remaining retry budget. -/
theorem c7_circuit_open_not_retried (fn : Nat → Except ε γ)
    (times : Nat → Int) (cb : CircuitBreaker) (attempt budget : Nat)
    (hst : cb.state = CBState.opened)
    (hwin : times attempt - cb.last_failure_time ≤ cb.recovery_timeout) :
    (retryCBGo fn times cb attempt budget).1
        = Except.error CBError.circuitOpen ∧
    (retryCBGo fn times cb attempt budget).2.2.1 = 0 ∧
    (retryCBGo fn times cb attempt budget).2.2.2 = 0 := by
  have hrej := cbExecute_open_rejects cb (times attempt) (fn attempt) hst hwin
  rw [retryCBGo.eq_def, hrej]
  exact ⟨rfl, rfl, rfl⟩

/-- C7 witness: an open breaker (last failure at 20, recovery timeout
30) hit at time 25 with retry budget 5: the circuit-open error
propagates with zero invocations and zero sleeps. -/
theorem c7_circuit_open_not_retried_witness :
    (retryCBGo (fun _ => (Except.ok 1 : Except Unit Nat)) (fun _ => 25)
        { mkCircuitBreaker 2 30 3 with
            state := CBState.opened, last_failure_time := 20 } 0 5).1
        = Except.error CBError.circuitOpen ∧
    (retryCBGo (fun _ => (Except.ok 1 : Except Unit Nat)) (fun _ => 25)
        { mkCircuitBreaker 2 30 3 with
            state := CBState.opened, last_failure_time := 20 } 0 5).2.2.1 = 0 ∧
    (retryCBGo (fun _ => (Except.ok 1 : Except Unit Nat)) (fun _ => 25)
        { mkCircuitBreaker 2 30 3 with
            state := CBState.opened, last_failure_time := 20 } 0 5).2.2.2 = 0 :=
  c7_circuit_open_not_retried _ _ _ 0 5 rfl (by decide)

/-! ## Tiered cache (`modules/cache.py`, `PersistentCache`)

Python dicts are modelled as association lists preserving insertion
order (updating an existing key keeps its position, a new key is
appended, like a Python dict).  Wall-clock time is an explicit `Int`.
The file tier's on-disk JSON documents are modelled as the same entry
shape `{value, created_at, expires_at}`; corrupt files are not
representable in the model (they are treated as absent by the code).
The optional Redis tier is `none` when no `redis_client` is
configured. -/

/-- Association-list lookup (`d[k]` / `k in d`). -/
def lookupA (l : List (String × β)) (k : String) : Option β :=
  (l.find? fun p => p.1 = k).map Prod.snd

/-- Association-list write (`d[k] = v`): updates in place, appends if
absent. -/
def insertA (l : List (String × β)) (k : String) (v : β) :
    List (String × β) :=
  if l.any fun p => p.1 = k then
    l.map fun p => if p.1 = k then (k, v) else p
  else l ++ [(k, v)]

/-- Association-list delete (`del d[k]`, tolerant of a missing key). -/
def eraseA (l : List (String × β)) (k : String) : List (String × β) :=
  l.filter fun p => ¬ p.1 = k

/-- One cached entry: the JSON document
`{value, created_at, expires_at}`. -/
structure CacheEntry (V : Type) where
  value : V
  created_at : Int
  expires_at : Int
deriving Repr, DecidableEq

/-- `PersistentCache` state: configuration, memory tier with access
times, file tier, optional Redis tier. -/
structure PersistentCache (V : Type) where
  memory_ttl : Int
  file_ttl : Int
  redis_ttl : Int
  max_memory_items : Nat
  memory_cache : List (String × CacheEntry V)
  access_times : List (String × Int)
  file_store : List (String × CacheEntry V)
  redis_store : Option (List (String × CacheEntry V))
deriving Repr, DecidableEq

/-- `PersistentCache.__init__` with the default `max_memory_items`,
`redis_ttl` and no Redis client. -/
def mkPersistentCache (V : Type) (memory_ttl file_ttl : Int) :
    PersistentCache V :=
  { memory_ttl := memory_ttl
    file_ttl := file_ttl
    redis_ttl := 86400
    max_memory_items := 1000
    memory_cache := []
    access_times := []
    file_store := []
    redis_store := none }

/-- `PersistentCache._cleanup_memory_cache`: drop expired entries, then
evict least-recently-used entries down to `max_memory_items`. -/
def cleanupMemoryCache (c : PersistentCache V) (now : Int) :
    PersistentCache V :=
  let expired := (c.memory_cache.filter fun p => now > p.2.expires_at).map
    Prod.fst
  let mem1 := c.memory_cache.filter fun p => ¬ now > p.2.expires_at
  let acc1 := c.access_times.filter fun p => ¬ p.1 ∈ expired
  if c.max_memory_items < mem1.length then
    let sorted_keys := acc1.mergeSort fun a b => decide (a.2 ≤ b.2)
    let victims :=
      (sorted_keys.take (mem1.length - c.max_memory_items)).map Prod.fst
    { c with memory_cache := mem1.filter fun p => ¬ p.1 ∈ victims,
             access_times := acc1.filter fun p => ¬ p.1 ∈ victims }
  else
    { c with memory_cache := mem1, access_times := acc1 }

/-- `PersistentCache._set_in_memory`. -/
def setInMemory (c : PersistentCache V) (key : String) (v : V)
    (ttl now : Int) : PersistentCache V :=
  let c1 := { c with
      memory_cache := insertA c.memory_cache key ⟨v, now, now + ttl⟩,
      access_times := insertA c.access_times key now }
  if c1.max_memory_items < c1.memory_cache.length then
    cleanupMemoryCache c1 now
  else c1

/-- `PersistentCache._set_in_file` (I/O errors are logged and ignored;
they are not representable in the model). -/
def setInFile (c : PersistentCache V) (key : String) (v : V)
    (ttl now : Int) : PersistentCache V :=
  { c with file_store := insertA c.file_store key ⟨v, now, now + ttl⟩ }

/-- `PersistentCache._set_in_redis` (no-op without a Redis client). -/
def setInRedis (c : PersistentCache V) (key : String) (v : V)
    (ttl now : Int) : PersistentCache V :=
  match c.redis_store with
  | none => c
  | some s => { c with redis_store := some (insertA s key ⟨v, now, now + ttl⟩) }

/-- `PersistentCache.set`: write to memory, file, and Redis (if
configured), each with its own TTL (`none` selects the configured
default). -/
def cacheSet (c : PersistentCache V) (key : String) (v : V) (now : Int)
    (memory_ttl file_ttl redis_ttl : Option Int) : PersistentCache V :=
  let mttl := memory_ttl.getD c.memory_ttl
  let fttl := file_ttl.getD c.file_ttl
  let rttl := redis_ttl.getD c.redis_ttl
  setInRedis (setInFile (setInMemory c key v mttl now) key v fttl now)
    key v rttl now

/-- `PersistentCache._get_from_memory`. -/
def getFromMemory (c : PersistentCache V) (key : String) (now : Int) :
    Option V × PersistentCache V :=
  match lookupA c.memory_cache key with
  | none => (none, c)
  | some entry =>
    if now > entry.expires_at then
      (none, { c with memory_cache := eraseA c.memory_cache key,
                      access_times := eraseA c.access_times key })
    else
      (some entry.value,
       { c with access_times := insertA c.access_times key now })

/-- `PersistentCache._get_from_file`. -/
def getFromFile (c : PersistentCache V) (key : String) (now : Int) :
    Option V × PersistentCache V :=
  match lookupA c.file_store key with
  | none => (none, c)
  | some entry =>
    if now > entry.expires_at then
      (none, { c with file_store := eraseA c.file_store key })
    else
      (some entry.value, c)

/-- `PersistentCache._get_from_redis`. -/
def getFromRedis (c : PersistentCache V) (key : String) (now : Int) :
    Option V × PersistentCache V :=
  match c.redis_store with
  | none => (none, c)
  | some s =>
    match lookupA s key with
    | none => (none, c)
    | some entry =>
      if now > entry.expires_at then
        (none, { c with redis_store := some (eraseA s key) })
      else
        (some entry.value, c)

/-- `PersistentCache.get`: memory, then file (backfilling memory), then
Redis (backfilling memory and file). -/
def cacheGet (c : PersistentCache V) (key : String) (now : Int) :
    Option V × PersistentCache V :=
  match getFromMemory c key now with
  | (some v, c1) => (some v, c1)
  | (none, c1) =>
    match getFromFile c1 key now with
    | (some v, c2) => (some v, setInMemory c2 key v c2.memory_ttl now)
    | (none, c2) =>
      match c2.redis_store with
      | some _ =>
        match getFromRedis c2 key now with
        | (some v, c3) =>
          (some v,
           setInFile (setInMemory c3 key v c3.memory_ttl now)
             key v c3.file_ttl now)
        | (none, c3) => (none, c3)
      | none => (none, c2)

/-- A `set` on a fresh cache populates the memory and file tiers with
the configured TTLs. -/
theorem cacheSet_empty (V : Type) (mttl fttl : Int) (k : String) (v : V)
    (t0 : Int) :
    cacheSet (mkPersistentCache V mttl fttl) k v t0 none none none =
      { memory_ttl := mttl, file_ttl := fttl, redis_ttl := 86400,
        max_memory_items := 1000,
        memory_cache := [(k, ⟨v, t0, t0 + mttl⟩)],
        access_times := [(k, t0)],
        file_store := [(k, ⟨v, t0, t0 + fttl⟩)],
        redis_store := none } := rfl

/-! ### Claim C6

The specification claims `cache.get(k)` returns `v` "until any one of
the configured tier TTLs elapses, after which `cache.get(k)` returns
absent".  In the code, when the memory tier's TTL has elapsed but the
file tier's has not, `get` falls through to the file tier and still
returns `v` — the value only becomes absent once **every** tier's TTL
has elapsed. -/

/-- C6 counterexample: memory TTL 1, file TTL 10, `set` at time 0; a
`get` at time 5 — after the memory TTL has elapsed — still returns the
value (from the file tier), not absent. -/
theorem c6_counterexample :
    (cacheGet (cacheSet (mkPersistentCache Nat 1 10) "k" 42 0 none none none)
        "k" 5).1 = some 42 ∧
    (0 : Int) + 1 < 5 := by
  constructor
  · rfl
  · decide

/-- C6 amended: on a fresh cache with non-negative tier TTLs,
immediately after `set(k, v)` at time `t0` a `get(k)` returns `v`, and
keeps returning `v` at any time up to `t0 + max memory_ttl file_ttl`
(i.e. until **all** configured tier TTLs have elapsed); at any later
time `get(k)` returns absent. -/
theorem c6_set_get_roundtrip (V : Type) (mttl fttl : Int) (k : String)
    (v : V) (t0 t : Int) :
    (t ≤ t0 + max mttl fttl →
      (cacheGet (cacheSet (mkPersistentCache V mttl fttl) k v t0 none none none)
        k t).1 = some v) ∧
    (t0 + max mttl fttl < t →
      (cacheGet (cacheSet (mkPersistentCache V mttl fttl) k v t0 none none none)
        k t).1 = none) := by
  rw [cacheSet_empty]
  by_cases h1 : t > t0 + mttl
  · by_cases h2 : t > t0 + fttl
    · constructor
      · intro ht
        exfalso
        rcases max_cases mttl fttl with ⟨hmax, _⟩ | ⟨hmax, _⟩ <;> omega
      · intro _
        simp [cacheGet, getFromMemory, getFromFile, lookupA, h1, h2]
    · constructor
      · intro _
        simp [cacheGet, getFromMemory, getFromFile, lookupA, h1, h2]
      · intro ht
        exfalso
        rcases max_cases mttl fttl with ⟨hmax, _⟩ | ⟨hmax, _⟩ <;> omega
  · constructor
    · intro _
      simp [cacheGet, getFromMemory, lookupA, h1]
    · intro ht
      exfalso
      rcases max_cases mttl fttl with ⟨hmax, _⟩ | ⟨hmax, _⟩ <;> omega

/-- C6 witness: concrete TTLs 1 (memory) and 10 (file): the value is
still returned at time 10 and absent at time 11. -/
theorem c6_set_get_roundtrip_witness :
    (cacheGet (cacheSet (mkPersistentCache Nat 1 10) "kk" 7 0 none none none)
        "kk" 10).1 = some 7 ∧
    (cacheGet (cacheSet (mkPersistentCache Nat 1 10) "kk" 7 0 none none none)
        "kk" 11).1 = none :=
  ⟨(c6_set_get_roundtrip Nat 1 10 "kk" 7 0 10).1 (by decide),
   (c6_set_get_roundtrip Nat 1 10 "kk" 7 0 11).2 (by decide)⟩

/-! ## Background job manager (`modules/background_processing.py`)

A `Job` record (the `func`/`args`/`kwargs` fields live outside the
model: the callable's outcome is passed to `processJob` as an
`Except String (Option ρ)` value — `Except.error msg` is an uncaught
exception whose `str()` is `msg`, `Except.ok none` a callable returning
`None`; the free-form `metadata` dict plays no role in the claims and
is omitted).  Progress fractions are modelled as `Rat`.  The job table
`self.jobs` is an association list keyed by job id. -/

structure Job (ρ : Type) where
  id : String
  name : String
  status : String
  result : Option ρ
  error : Option String
  created_at : Int
  started_at : Option Int
  completed_at : Option Int
  progress : Rat
  progress_message : Option String
deriving Repr, DecidableEq

theorem lookupA_map_replace (k : String) (v : β) :
    ∀ l : List (String × β), (l.any fun p => p.1 = k) = true →
      lookupA (l.map fun p => if p.1 = k then (k, v) else p) k = some v := by
  intro l
  induction l with
  | nil => intro h; simp at h
  | cons a t ih =>
    intro h
    by_cases ha : a.1 = k
    · simp [lookupA, List.find?_cons, ha]
    · simp only [List.map_cons, if_neg ha]
      rw [lookupA, List.find?_cons]
      simp only [ha, decide_False]
      rw [← lookupA]
      exact ih (by simpa [ha] using h)

theorem lookupA_absent_append (k : String) (v : β) :
    ∀ l : List (String × β), (l.any fun p => p.1 = k) = false →
      lookupA (l ++ [(k, v)]) k = some v := by
  intro l
  induction l with
  | nil => intro _; simp [lookupA, List.find?]
  | cons a t ih =>
    intro h
    have ha : ¬ a.1 = k := by
      intro hk
      simp [hk] at h
    rw [List.cons_append, lookupA, List.find?_cons]
    simp only [ha, decide_False]
    rw [← lookupA]
    exact ih (by simpa [ha] using h)

/-- `d[k] = v` followed by `d[k]` reads back `v`. -/
theorem lookupA_insertA (l : List (String × β)) (k : String) (v : β) :
    lookupA (insertA l k v) k = some v := by
  rw [insertA]
  by_cases h : (l.any fun p => p.1 = k) = true
  · rw [if_pos h]
    exact lookupA_map_replace k v l h
  · rw [if_neg h]
    exact lookupA_absent_append k v l (Bool.not_eq_true _ |>.mp h)

/-- `BackgroundJobManager._process_job`, given the callable's outcome.
The Python `try`/`except` catches every exception from the callable, so
the embedding is a total function on the job table: nothing is ever
re-raised into the worker loop. -/
def processJob (jobs : List (String × Job ρ)) (jid : String)
    (callResult : Except String (Option ρ)) (now : Int) :
    List (String × Job ρ) :=
  match callResult with
  | .ok res =>
    match lookupA jobs jid with
    | none => jobs
    | some job =>
      if job.status ≠ "cancelled" then
        insertA jobs jid { job with result := res, status := "completed",
                                    completed_at := some now, progress := 1 }
      else jobs
  | .error msg =>
    match lookupA jobs jid with
    | none => jobs
    | some job =>
      if job.status ≠ "cancelled" then
        insertA jobs jid { job with error := some msg, status := "failed",
                                    completed_at := some now }
      else jobs

/-- `BackgroundJobManager.update_progress`. -/
def update_progress (jobs : List (String × Job ρ)) (jid : String)
    (progress : Rat) (message : Option String) :
    Bool × List (String × Job ρ) :=
  match lookupA jobs jid with
  | none => (false, jobs)
  | some job =>
    if job.status ≠ "running" then (false, jobs)
    else
      (true, insertA jobs jid
        { job with progress := max 0 (min 1 progress),
                   progress_message :=
                     match message with
                     | some m => some m
                     | none => job.progress_message })

/-! ### Claim C8

The claim quantifies over *every* job whose callable raises.  The code
guards the failure bookkeeping with "only update if not cancelled"
(`if job.status != "cancelled"`), so a job cancelled while its callable
was executing keeps status `cancelled` and a `None` error even when the
callable raises — the claim as stated fails there, and holds for jobs
still in `running` state. -/

/-- C8 counterexample: a job cancelled while executing whose callable
then raises `ValueError("boom")` — the record is left entirely
unchanged: status stays `cancelled` (not `failed`) and the error field
stays `None` (it does not hold `boom`). -/
theorem c8_counterexample :
    processJob
        [("j1", (⟨"j1", "a", "cancelled", none, none, 0, some 1, some 2,
                  0, none⟩ : Job Nat))]
        "j1" (Except.error "boom") 5
      = [("j1", ⟨"j1", "a", "cancelled", none, none, 0, some 1, some 2,
                 0, none⟩)] := by decide

/-- C8 amended: when a job still in `running` state has its callable
raise an exception with message
`msg`, the worker boundary stores `msg` as the job's error, moves the
job to `failed`, records the completion time, and leaves the result
field untouched (so a job enqueued with `result = None` still has
`result = None`); `processJob` is a total function, reflecting that the
exception is never re-raised into the worker loop. -/
theorem c8_failure_captured (jobs : List (String × Job ρ)) (jid : String)
    (msg : String) (now : Int) (job : Job ρ)
    (hfound : lookupA jobs jid = some job)
    (hrun : job.status = "running") :
    lookupA (processJob jobs jid (Except.error msg) now) jid =
      some { job with error := some msg, status := "failed",
                      completed_at := some now } ∧
    ({ job with error := some msg, status := "failed",
                completed_at := some now } : Job ρ).result = job.result := by
  constructor
  · have hnc : job.status ≠ "cancelled" := by rw [hrun]; decide
    simp only [processJob, hfound]
    rw [if_pos hnc]
    exact lookupA_insertA jobs jid _
  · rfl

/-- C8 witness: a concrete running job whose callable raised
`ValueError("boom")`: afterwards status is `failed`, the error contains
`boom`, and the result is still `None`. -/
theorem c8_failure_captured_witness :
    lookupA (processJob
        [("j1", (⟨"j1", "extract", "running", none, none, 0, some 1, none,
                  0, none⟩ : Job Nat))]
        "j1" (Except.error "boom") 5) "j1" =
      some ⟨"j1", "extract", "failed", none, some "boom", 0, some 1, some 5,
            0, none⟩ ∧
    (⟨"j1", "extract", "failed", none, some "boom", 0, some 1, some 5,
      0, none⟩ : Job Nat).result = none :=
  c8_failure_captured
    [("j1", (⟨"j1", "extract", "running", none, none, 0, some 1, none,
              0, none⟩ : Job Nat))]
    "j1" "boom" 5
    ⟨"j1", "extract", "running", none, none, 0, some 1, none, 0, none⟩
    (by decide) (by decide)

/-! ### Claim C9 -/

/-- C9: `update_progress` on a job that exists but is not in `running`
state returns `False` and leaves the job table (hence every field of the
job's record) unchanged; on a running job it returns `True` and stores
the progress clamped into `[0, 1]` (updating the message only when one
is supplied). -/
theorem c9_update_progress_gate (jobs : List (String × Job ρ))
    (jid : String) (p : Rat) (message : Option String) (job : Job ρ)
    (hfound : lookupA jobs jid = some job) :
    (job.status ≠ "running" →
      update_progress jobs jid p message = (false, jobs)) ∧
    (job.status = "running" →
      (update_progress jobs jid p message).1 = true ∧
      lookupA (update_progress jobs jid p message).2 jid =
        some { job with progress := max 0 (min 1 p),
                        progress_message :=
                          match message with
                          | some m => some m
                          | none => job.progress_message } ∧
      0 ≤ max 0 (min 1 p) ∧ max 0 (min 1 p) ≤ 1) := by
  constructor
  · intro hns
    simp only [update_progress, hfound]
    rw [if_pos hns]
  · intro hrun
    simp only [update_progress, hfound]
    rw [if_neg (show ¬ job.status ≠ "running" by simp [hrun])]
    refine ⟨rfl, lookupA_insertA jobs jid _, le_max_left 0 _, ?_⟩
    exact max_le (by norm_num) (min_le_left 1 p)

/-- C9 witness: a pending job rejects the update unchanged; a running
job accepts it and clamps progress `3/2` down to `1`. -/
theorem c9_update_progress_gate_witness :
    (update_progress
        [("j1", (⟨"j1", "a", "pending", none, none, 0, none, none,
                  0, none⟩ : Job Nat))] "j1" (3/2) none
      = (false,
         [("j1", (⟨"j1", "a", "pending", none, none, 0, none, none,
                   0, none⟩ : Job Nat))])) ∧
    ((update_progress
        [("j2", (⟨"j2", "b", "running", none, none, 0, some 1, none,
                  0, none⟩ : Job Nat))] "j2" (3/2) none).1 = true ∧
     lookupA (update_progress
        [("j2", (⟨"j2", "b", "running", none, none, 0, some 1, none,
                  0, none⟩ : Job Nat))] "j2" (3/2) none).2 "j2" =
       some ⟨"j2", "b", "running", none, none, 0, some 1, none,
             max 0 (min 1 (3/2)), none⟩ ∧
     0 ≤ max 0 (min 1 (3/2 : Rat)) ∧ max 0 (min 1 (3/2 : Rat)) ≤ 1) :=
  ⟨(c9_update_progress_gate
      [("j1", (⟨"j1", "a", "pending", none, none, 0, none, none,
                0, none⟩ : Job Nat))] "j1" (3/2) none
      ⟨"j1", "a", "pending", none, none, 0, none, none, 0, none⟩
      (by decide)).1 (by decide),
   (c9_update_progress_gate
      [("j2", (⟨"j2", "b", "running", none, none, 0, some 1, none,
                0, none⟩ : Job Nat))] "j2" (3/2) none
      ⟨"j2", "b", "running", none, none, 0, some 1, none, 0, none⟩
      (by decide)).2 (by decide)⟩

/-! ### Claim C10 (`BackgroundJobManager.get_all_jobs`)

A snapshot dictionary as built inside `get_all_jobs`.  The `result` and
`error` keys are only *added* to the dict for completed/failed jobs, so
their presence is modelled by an outer `Option` (`none` = key absent;
the inner value is the job's own, possibly-`None`, field).  Python's
`x or y` on timestamps treats both `None` and `0` as falsy, which
`pyOrTime`/`pyTruthyTime` reproduce. -/

def pyOrTime (x : Option Int) (dflt : Int) : Int :=
  match x with
  | some v => if v ≠ 0 then v else dflt
  | none => dflt

def pyTruthyTime (x : Option Int) : Bool :=
  match x with
  | some v => decide (v ≠ 0)
  | none => false

/-- `(job.completed_at or time.time()) - (job.started_at or
job.created_at) if job.started_at else 0`. -/
def jobRuntime (job : Job ρ) (now : Int) : Int :=
  if pyTruthyTime job.started_at then
    pyOrTime job.completed_at now - pyOrTime job.started_at job.created_at
  else 0

structure JobSnapshot (ρ : Type) where
  id : String
  name : String
  status : String
  created_at : Int
  started_at : Option Int
  completed_at : Option Int
  progress : Rat
  progress_message : Option String
  runtime : Int
  result : Option (Option ρ)
  error : Option (Option String)
deriving Repr, DecidableEq

/-- The snapshot dict built for one job inside `get_all_jobs`. -/
def jobSnapshot (job : Job ρ) (now : Int) : JobSnapshot ρ :=
  { id := job.id, name := job.name, status := job.status,
    created_at := job.created_at, started_at := job.started_at,
    completed_at := job.completed_at, progress := job.progress,
    progress_message := job.progress_message,
    runtime := jobRuntime job now,
    result := if job.status = "completed" then some job.result else none,
    error := if job.status = "failed" then some job.error else none }

/-- `BackgroundJobManager.get_all_jobs`: filter, snapshot, sort newest
first (stable, like Python's `sorted` with `reverse=True`), truncate to
`limit`. -/
def get_all_jobs (jobs : List (String × Job ρ)) (include_completed : Bool)
    (limit : Nat) (now : Int) : List (JobSnapshot ρ) :=
  let l := jobs.filterMap fun p =>
    if include_completed = false ∧
        (p.2.status = "completed" ∨ p.2.status = "failed") then
      none
    else some (jobSnapshot p.2 now)
  (l.mergeSort fun a b => decide (b.created_at ≤ a.created_at)).take limit

/-- C10: with `include_completed = False`, `get_all_jobs` filters out
exactly the completed and failed jobs: every returned snapshot has a
status other than `completed`/`failed`, and every job in any other
status — including the terminal `cancelled` — still yields its snapshot
in the returned list (provided the limit is not exceeded).  Moreover,
for either value of `include_completed`, a snapshot carries a `result`
key only when its job is `completed` and an `error` key only when its
job is `failed`. -/
theorem c10_get_all_jobs_filter (jobs : List (String × Job ρ))
    (limit : Nat) (now : Int) :
    (∀ s ∈ get_all_jobs jobs false limit now,
      s.status ≠ "completed" ∧ s.status ≠ "failed") ∧
    (∀ p ∈ jobs, p.2.status ≠ "completed" → p.2.status ≠ "failed" →
      jobs.length ≤ limit →
      jobSnapshot p.2 now ∈ get_all_jobs jobs false limit now) ∧
    (∀ (inc : Bool), ∀ s ∈ get_all_jobs jobs inc limit now,
      (s.result ≠ none → s.status = "completed") ∧
      (s.error ≠ none → s.status = "failed")) := by
  refine ⟨?_, ?_, ?_⟩
  · intro s hs
    have hs2 := List.take_subset _ _ hs
    rw [List.mem_mergeSort, List.mem_filterMap] at hs2
    obtain ⟨p, _, hp⟩ := hs2
    by_cases hc : (false = false ∧
        (p.2.status = "completed" ∨ p.2.status = "failed"))
    · rw [if_pos hc] at hp; exact absurd hp (by simp)
    · rw [if_neg hc] at hp
      have hstat : ¬ (p.2.status = "completed" ∨ p.2.status = "failed") := by
        intro h; exact hc ⟨rfl, h⟩
      cases hp
      exact ⟨fun h => hstat (Or.inl h), fun h => hstat (Or.inr h)⟩
  · intro p hp hnc hnf hlim
    rw [get_all_jobs]
    have hmem : jobSnapshot p.2 now ∈ jobs.filterMap fun q =>
        if false = false ∧ (q.2.status = "completed" ∨ q.2.status = "failed")
        then none else some (jobSnapshot q.2 now) := by
      rw [List.mem_filterMap]
      refine ⟨p, hp, ?_⟩
      rw [if_neg (by rintro ⟨_, h | h⟩; exact hnc h; exact hnf h)]
    have hlen : ((jobs.filterMap fun q =>
        if false = false ∧ (q.2.status = "completed" ∨ q.2.status = "failed")
        then none else some (jobSnapshot q.2 now)).mergeSort
          fun a b => decide (b.created_at ≤ a.created_at)).length ≤ limit := by
      rw [List.length_mergeSort]
      exact le_trans (List.length_filterMap_le _ _) hlim
    rw [List.take_of_length_le hlen, List.mem_mergeSort]
    exact hmem
  · intro inc s hs
    have hs2 := List.take_subset _ _ hs
    rw [List.mem_mergeSort, List.mem_filterMap] at hs2
    obtain ⟨p, _, hp⟩ := hs2
    by_cases hc : (inc = false ∧
        (p.2.status = "completed" ∨ p.2.status = "failed"))
    · rw [if_pos hc] at hp; exact absurd hp (by simp)
    · rw [if_neg hc] at hp
      cases hp
      constructor
      · intro hres
        by_cases hcmp : p.2.status = "completed"
        · exact hcmp
        · exfalso
          apply hres
          show (if p.2.status = "completed" then some p.2.result else none)
            = none
          rw [if_neg hcmp]
      · intro herr
        by_cases hfl : p.2.status = "failed"
        · exact hfl
        · exfalso
          apply herr
          show (if p.2.status = "failed" then some p.2.error else none)
            = none
          rw [if_neg hfl]

/-- C10 witness: a table with one cancelled and one completed job;
`include_completed = False` keeps the cancelled job's snapshot and the
returned snapshot exposes no result/error keys for it. -/
theorem c10_get_all_jobs_filter_witness :
    jobSnapshot
        (⟨"j1", "a", "cancelled", none, none, 0, some 1, some 2,
          0, none⟩ : Job Nat) 9
      ∈ get_all_jobs
          [("j1", (⟨"j1", "a", "cancelled", none, none, 0, some 1, some 2,
                    0, none⟩ : Job Nat)),
           ("j2", (⟨"j2", "b", "completed", some 4, none, 3, some 4, some 5,
                    1, none⟩ : Job Nat))]
          false 100 9 :=
  (c10_get_all_jobs_filter
      [("j1", (⟨"j1", "a", "cancelled", none, none, 0, some 1, some 2,
                0, none⟩ : Job Nat)),
       ("j2", (⟨"j2", "b", "completed", some 4, none, 3, some 4, some 5,
                1, none⟩ : Job Nat))]
      100 9).2.1
    ("j1", ⟨"j1", "a", "cancelled", none, none, 0, some 1, some 2, 0, none⟩)
    (by decide) (by decide) (by decide) (by decide)

end MetadataExtract
